import Mathlib

/-
Verification of the as-pect CLI test pipeline (src/cli.ts) and of the
assertion DSL contract it drives.  The definitions below are a shallow
embedding of the TypeScript source: pure helpers become Lean functions,
the mutable pipeline state (binaries, sourcemaps, pending counter,
failed flag, process exit) becomes explicit state passing, and external
collaborators (glob, the asc compiler, the wasm loader) become function
parameters.
-/

namespace Aspect

/-- Artifact contents; models a Uint8Array as an abstract byte list. -/
abbrev Bytes := List Nat

/-! ### Model of the Node path module (external collaborator)

The CLI uses path.extname, path.dirname, path.basename and path.join on
POSIX-style relative paths.  The functions below model the documented
contract of that module for such paths (no trailing-slash or double-dot
special cases, which never occur for the artifact names and spec paths
the CLI manipulates). -/

/-- Index of the last occurrence of a character in a character list. -/
def lastIdxOf (c : Char) : List Char → Option Nat
  | [] => none
  | x :: xs =>
    match lastIdxOf c xs with
    | some n => some (n + 1)
    | none => if x = c then some 0 else none

/-- Splits a character list at every occurrence of a separator. -/
def splitOnChar (c : Char) : List Char → List (List Char)
  | [] => [[]]
  | x :: xs =>
    if x = c then [] :: splitOnChar c xs
    else
      match splitOnChar c xs with
      | [] => [[x]]
      | y :: ys => (x :: y) :: ys

/-- Joins character lists with a separator character between them. -/
def joinWithChar (c : Char) : List (List Char) → List Char
  | [] => []
  | [x] => x
  | x :: y :: ys => x ++ c :: joinWithChar c (y :: ys)

/-- Final path segment, models path.basename with one argument. -/
def baseName (p : String) : String :=
  String.mk ((splitOnChar '/' p.data).getLastD p.data)

/-- Extension of a path, models path.extname: the suffix of the final
segment from its last dot, empty when there is no dot or when the only
dot starts the segment (hidden files). -/
def extname (p : String) : String :=
  let bn := (baseName p).data
  match lastIdxOf '.' bn with
  | none => ""
  | some 0 => ""
  | some n => String.mk (bn.drop n)

/-- Directory part of a path, models path.dirname. -/
def dirname (p : String) : String :=
  let parts := splitOnChar '/' p.data
  if parts.length ≤ 1 then "."
  else String.mk (joinWithChar '/' parts.dropLast)

/-- Final segment with a suffix stripped, models path.basename(p, ext):
the suffix is removed when it is a proper suffix of the segment. -/
def baseNameDrop (p ext : String) : String :=
  let bn := (baseName p).data
  let e := ext.data
  if e ≠ [] ∧ bn ≠ e ∧ e.isSuffixOf bn then
    String.mk (bn.take (bn.length - e.length))
  else String.mk bn

/-- Joins two path segments, models path.join for the shapes the CLI
produces (a dirname result joined with a file name). -/
def pathJoin (a b : String) : String :=
  if a = "." then b else a ++ "/" ++ b

/-! ### Association stores

JavaScript object indexing: binaries[i] = contents and
sourcemaps[name] = contents overwrite the entry for an existing key and
append a fresh entry otherwise. -/

/-- Store an entry, overwriting the value at an existing key. -/
def assocSet {κ ν : Type} [DecidableEq κ] : List (κ × ν) → κ → ν → List (κ × ν)
  | [], k, v => [(k, v)]
  | (k0, v0) :: rest, k, v =>
    if k0 = k then (k, v) :: rest else (k0, v0) :: assocSet rest k v

/-- Look up the value stored at a key. -/
def assocGet {κ ν : Type} [DecidableEq κ] (k : κ) : List (κ × ν) → Option ν
  | [] => none
  | (k0, v) :: rest => if k0 = k then some v else assocGet k rest

/-! ### File resolution (cli.ts lines 150-171)

testEntryFiles is built by pushing glob.sync results for each include
pattern, deduplicating with lodash.uniq, then filtering out every file
matched by any disclude regular expression.  glob.sync is an external
collaborator and is passed in as a function from a pattern to its
ordered match list; a RegExp is modelled by its test predicate. -/

/-- Deduplication keeping the first occurrence of every element, with an
accumulator of the elements already seen; models lodash.uniq. -/
def uniqAux (seen : List String) : List String → List String
  | [] => []
  | x :: xs => if x ∈ seen then uniqAux seen xs else x :: uniqAux (x :: seen) xs

/-- Models lodash.uniq: removes duplicates, keeping first occurrences. -/
def uniq (l : List String) : List String := uniqAux [] l

/-- Concatenation of the glob matches of each pattern, in pattern order;
models the for-loop pushing glob.sync results on testEntryFiles. -/
def resolveIncludes (globSync : String → List String) (patterns : List String) :
    List String :=
  patterns.foldl (fun acc p => acc ++ globSync p) []

/-- Sequentially filters out the files matched by each disclude regular
expression; models the disclude.forEach loop. -/
def applyDisclude (disclude : List (String → Bool)) (files : List String) :
    List String :=
  disclude.foldl (fun fs r => fs.filter (fun f => !(r f))) files

/-- The resolved spec-file list: include expansion, deduplication, then
exclusion; models cli.ts lines 155-171. -/
def testEntryFiles (globSync : String → List String)
    (includes : List String) (disclude : List (String → Bool)) : List String :=
  applyDisclude disclude (uniq (resolveIncludes globSync includes))

/-- The added helper file list with the fixed framework entry pushed at
the end; models cli.ts lines 160-163 and 182.  No deduplication and no
disclude filtering is applied to it. -/
def addedTestEntryFiles (globSync : String → List String)
    (add : List String) (relativeEntryPath : String) : List String :=
  (add.foldl (fun acc p => acc ++ globSync p) []) ++ [relativeEntryPath]

/-! ### Compiler flags (cli.ts lines 136-143 and 189-191)

A JavaScript object with string keys preserves insertion order under
Object.entries, so the flag mapping is modelled as an ordered
association list of flag token and argument list. -/

/-- One entry of the ICompilerFlags mapping: flag token and arguments. -/
abbrev FlagEntry := String × List String

/-- The default flag object of cli.ts lines 136-143, used when the
configuration supplies no flags. -/
def defaultFlags : List FlagEntry :=
  [("--validate", []), ("--debug", []), ("--measure", []),
   ("--sourceMap", []), ("--binaryFile", ["output.wasm"])]

/-- The flags actually used: configuration.flags when supplied, the
default object otherwise; models the or-default at line 136. -/
def flagsOf (configFlags : Option (List FlagEntry)) : List FlagEntry :=
  configFlags.getD defaultFlags

/-- Flattening of the flag mapping; models the Object.entries reduce at
lines 189-191: args.concat(flag, options) for each entry in order. -/
def flagList (flags : List FlagEntry) : List String :=
  flags.foldl (fun args fo => args ++ ([fo.1] ++ fo.2)) []

/-- The argument list handed to asc.main for one spec file; models the
array literal at line 197. -/
def ascArguments (file : String) (added : List String)
    (flags : List FlagEntry) : List String :=
  [file] ++ added ++ flagList flags

/-! ### Pipeline state and the compiler write sink (cli.ts 174-247) -/

/-- The diagnostics logged on the two fatal per-unit paths. -/
inductive Diagnostic where
  | compileError (file : String)
  | noBinary (file : String)
deriving DecidableEq

/-- The console text of each diagnostic (cli.ts lines 218 and 226). -/
def Diagnostic.message : Diagnostic → String
  | .compileError file =>
    "There was a compilation error when trying to create the wasm binary for file: "
      ++ file ++ "."
  | .noBinary file =>
    "There was no output binary file: " ++ file
      ++ ". Did you forget to emit the binary?"

/-- The mutable state of one pipeline run: the two in-memory artifact
maps and the disk writes of the write sink, plus the pending counter,
the failed flag, the process exit request and the diagnostic log. -/
structure RunState where
  binaries : List (Nat × Bytes)
  sourcemaps : List (String × Bytes)
  disk : List (String × Bytes)
  count : Nat
  failed : Bool
  exitCode : Option Nat
  log : List Diagnostic
deriving DecidableEq

/-- The initial state: empty maps, pending counter at the resolved
spec-file count, failed flag clear (cli.ts lines 174-186). -/
def initState (n : Nat) : RunState :=
  { binaries := [], sourcemaps := [], disk := [], count := n,
    failed := false, exitCode := none, log := [] }

/-- The write sink passed to asc.main for the spec file at index i
(cli.ts lines 200-214): a .wasm artifact is stored in memory under i, a
.map artifact is stored in memory under its name, anything else is
written to disk next to the spec file with the artifact extension. -/
def writeFile (file : String) (i : Nat) (st : RunState)
    (name : String) (contents : Bytes) : RunState :=
  if extname name = ".wasm" then
    { st with binaries := assocSet st.binaries i contents }
  else if extname name = ".map" then
    { st with sourcemaps := assocSet st.sourcemaps name contents }
  else
    { st with disk := st.disk ++
        [(pathJoin (dirname file)
            (baseNameDrop file (extname file) ++ extname name), contents)] }

/-- The asc.main completion callback for the spec file at index i
(cli.ts lines 215-246).  A reported compiler error or a missing binary
logs a diagnostic, decrements the counter and requests exit 1.
Otherwise the binary is instantiated and run; runPass abstracts
instantiateBuffer plus TestContext.run plus the resulting pass flag as
a function of the captured binary bytes.  The counter is decremented,
the failed flag is or-ed with the negated pass flag, and exit 1 is
requested when the counter reaches zero with the flag set. -/
def compileCallback (runPass : Bytes → Bool) (file : String) (i : Nat)
    (error : Option String) (st : RunState) : RunState :=
  match error with
  | some _ =>
    { st with log := st.log ++ [Diagnostic.compileError file],
              count := st.count - 1, exitCode := some 1 }
  | none =>
    match assocGet i st.binaries with
    | none =>
      { st with log := st.log ++ [Diagnostic.noBinary file],
                count := st.count - 1, exitCode := some 1 }
    | some bin =>
      let pass := runPass bin
      let count := st.count - 1
      let failed := st.failed || !pass
      { st with count := count, failed := failed,
                exitCode := if count = 0 && failed then some 1 else st.exitCode }

/-- One asc.main invocation as observed by the pipeline: the spec file,
its resolution index, the artifacts streamed to the write sink in
order, and the optional compile error handed to the callback. -/
structure UnitJob where
  file : String
  i : Nat
  artifacts : List (String × Bytes)
  error : Option String

/-- The binary captured for a unit: the last .wasm artifact it streams,
if any (later writes overwrite binaries[i]). -/
def capturedBinary (j : UnitJob) : Option Bytes :=
  j.artifacts.foldl
    (fun acc a => if extname a.1 = ".wasm" then some a.2 else acc) none

/-- All write-sink calls of one compiler invocation, in stream order. -/
def runArtifacts (file : String) (i : Nat) (arts : List (String × Bytes))
    (st : RunState) : RunState :=
  arts.foldl (fun s a => writeFile file i s a.1 a.2) st

/-- One complete unit: the write-sink calls followed by the completion
callback. -/
def runUnit (runPass : Bytes → Bool) (j : UnitJob) (st : RunState) : RunState :=
  compileCallback runPass j.file j.i j.error (runArtifacts j.file j.i j.artifacts st)

/-- A whole run over the units in completion order.  Once process.exit
has been requested the process is gone, so the callbacks of the
remaining units never run: they leave the state untouched. -/
def runUnits (runPass : Bytes → Bool) (jobs : List UnitJob) (st : RunState) :
    RunState :=
  jobs.foldl (fun s j => if s.exitCode.isSome then s else runUnit runPass j s) st

/-- The observed process exit status: the requested exit code, or 0
when the event loop drains with no exit requested. -/
def finalExit (st : RunState) : Nat := st.exitCode.getD 0

/-! ### Configuration loading (cli.ts 117-132) -/

/-- A JavaScript value as far as truthiness is concerned.  numv models
a finite number; the require result of a configuration module. -/
inductive JSValue where
  | undef
  | nullv
  | boolv (b : Bool)
  | numv (n : Int)
  | strv (s : String)
  | objv
deriving DecidableEq

/-- JavaScript truthiness: undefined, null, false, 0 and the empty
string are falsy; objects (including the empty object) are truthy. -/
def truthy : JSValue → Bool
  | .undef => false
  | .nullv => false
  | .boolv b => b
  | .numv n => decide (n ≠ 0)
  | .strv s => decide (s ≠ "")
  | .objv => true

/-- JavaScript logical or: the left operand when truthy, else the
right. -/
def jsOr (a b : JSValue) : JSValue := if truthy a then a else b

/-- The outcome of the configuration-loading block. -/
inductive ConfigLoadResult where
  | exitCatch
  | exitNullCheck
  | loaded (cfg : JSValue)
deriving DecidableEq

/-- Models cli.ts lines 117-132: configuration is assigned
require(configurationPath) or-else the empty object inside a try whose
catch exits with status 1; afterwards a falsy configuration also exits
with status 1 on a separate branch.  The require call either throws
(Except.error) or produces a value. -/
def loadConfiguration (req : Except String JSValue) : ConfigLoadResult :=
  match req with
  | .error _ => .exitCatch
  | .ok v =>
    let configuration := jsOr v JSValue.objv
    if truthy configuration = false then .exitNullCheck
    else .loaded configuration

/-! ### The aggregation invariant (claim C1) -/

/-- The failing verdict of one unit, as the aggregator sees it. -/
def unitFails (runPass : Bytes → Bool) (j : UnitJob) : Bool :=
  !(runPass ((capturedBinary j).getD []))

/-! ### Sourcemap frame relation (claim C10)

Two run states agree on everything except the shared sourcemap store.
The pipeline observables (binaries, disk writes, counter, failed flag,
exit request, log) never depend on that store. -/

/-- Agreement of two run states on every component except sourcemaps. -/
def SameExceptMaps (s t : RunState) : Prop :=
  s.binaries = t.binaries ∧ s.disk = t.disk ∧ s.count = t.count ∧
  s.failed = t.failed ∧ s.exitCode = t.exitCode ∧ s.log = t.log

/-! ### The assertion DSL negation contract (claims C7 and C8)

The Expectation implementation is the assembly-side runtime of the
framework, whose declaration file only is among the sources; the
definitions below are therefore modelled from the spec. -/

/-- Modelled from the spec: an Expectation (missing assembly runtime
class, only declared in the sources) wraps one actual value and
carries a one-level negation flag. -/
structure Expectation (α : Type) where
  actual : α
  negated : Bool

/-- Modelled from the spec: expect(value) wraps a value in an
Expectation with the negation flag clear. -/
def expect {α : Type} (value : α) : Expectation α :=
  { actual := value, negated := false }

/-- Modelled from the spec: the .not property returns an Expectation
bound to the same value with the negation flag inverted. -/
def Expectation.not {α : Type} (e : Expectation α) : Expectation α :=
  { e with negated := !e.negated }

/-- Modelled from the spec: the negation flag only flips a verdict the
matcher has already computed; it takes the raw verdict as given. -/
def Expectation.report {α : Type} (e : Expectation α) (raw : Bool) : Bool :=
  if e.negated then !raw else raw

/-- Modelled from the spec: a matcher call evaluates the matcher once
on the wrapped value and reports the possibly negated verdict. -/
def runMatcher {α : Type} (e : Expectation α) (matcher : α → Bool) : Bool :=
  e.report (matcher e.actual)

/-- Modelled from the spec: the toBeCloseTo matcher (missing assembly
runtime, only declared in the sources): verdict is
abs(actual - expected) < 0.5 * 10 ^ (-places) with places defaulting
to 2.  Stated over exact rationals, where the specified example values
are exact. -/
def toBeCloseTo (actual expected : ℚ) (decimalPlaces : Option ℕ) : Bool :=
  let places : ℕ := decimalPlaces.getD 2
  decide (|actual - expected| < (1 / 2) * (10 : ℚ) ^ (-(places : ℤ)))

/-! ### Theorems -/

theorem assocGet_assocSet {κ ν : Type} [DecidableEq κ]
    (m : List (κ × ν)) (i k : κ) (v : ν) :
    assocGet k (assocSet m i v) = if k = i then some v else assocGet k m := by
  induction m with
  | nil =>
    by_cases h : i = k
    · subst h; simp [assocSet, assocGet]
    · simp [assocSet, assocGet, h, Ne.symm h]
  | cons hd tl ih =>
    obtain ⟨k0, v0⟩ := hd
    by_cases h0 : k0 = i
    · subst h0
      by_cases h : k0 = k
      · subst h; simp [assocSet, assocGet]
      · simp [assocSet, assocGet, h, Ne.symm h]
    · by_cases h1 : k0 = k
      · subst h1
        simp [assocSet, assocGet, h0]
      · simp [assocSet, assocGet, h0, h1, ih]

theorem uniqAux_sublist (seen : List String) (l : List String) :
    List.Sublist (uniqAux seen l) l := by
  induction l generalizing seen with
  | nil => simp [uniqAux]
  | cons x xs ih =>
    by_cases hx : x ∈ seen
    · simp only [uniqAux, if_pos hx]
      exact (ih seen).trans (List.sublist_cons_self x xs)
    · simp only [uniqAux, if_neg hx]
      exact List.Sublist.cons₂ x (ih (x :: seen))

theorem mem_uniqAux {seen : List String} {l : List String} {a : String} :
    a ∈ uniqAux seen l ↔ a ∈ l ∧ a ∉ seen := by
  induction l generalizing seen with
  | nil => simp [uniqAux]
  | cons x xs ih =>
    by_cases hx : x ∈ seen
    · simp only [uniqAux, if_pos hx, ih, List.mem_cons]
      constructor
      · rintro ⟨h1, h2⟩
        exact ⟨Or.inr h1, h2⟩
      · rintro ⟨h1 | h1, h2⟩
        · exact absurd (h1 ▸ hx) h2
        · exact ⟨h1, h2⟩
    · simp only [uniqAux, if_neg hx, List.mem_cons, ih]
      constructor
      · rintro (rfl | ⟨h1, h2⟩)
        · exact ⟨Or.inl rfl, hx⟩
        · exact ⟨Or.inr h1, fun hs => h2 (Or.inr hs)⟩
      · rintro ⟨h1 | h1, h2⟩
        · exact Or.inl h1
        · by_cases hax : a = x
          · exact Or.inl hax
          · exact Or.inr ⟨h1, fun hs => hs.elim hax h2⟩

theorem uniqAux_nodup (seen : List String) (l : List String) :
    (uniqAux seen l).Nodup := by
  induction l generalizing seen with
  | nil => simp [uniqAux]
  | cons x xs ih =>
    by_cases hx : x ∈ seen
    · simpa [uniqAux, if_pos hx] using ih seen
    · simp only [uniqAux, if_neg hx]
      refine List.nodup_cons.2 ⟨fun hmem => ?_, ih (x :: seen)⟩
      exact (mem_uniqAux.1 hmem).2 (List.mem_cons.2 (Or.inl rfl))

theorem uniq_nodup (l : List String) : (uniq l).Nodup := uniqAux_nodup [] l

theorem mem_uniq {l : List String} {a : String} : a ∈ uniq l ↔ a ∈ l := by
  simp [uniq, mem_uniqAux]

theorem uniq_sublist (l : List String) : List.Sublist (uniq l) l :=
  uniqAux_sublist [] l

/-! ### Equation and frame lemmas for the pipeline step functions -/

theorem runUnits_nil (runPass : Bytes → Bool) (st : RunState) :
    runUnits runPass [] st = st := rfl

theorem runUnits_cons (runPass : Bytes → Bool) (j : UnitJob)
    (jobs : List UnitJob) (st : RunState) :
    runUnits runPass (j :: jobs) st =
      runUnits runPass jobs (if st.exitCode.isSome then st else runUnit runPass j st) :=
  rfl

theorem runArtifacts_nil (file : String) (i : Nat) (st : RunState) :
    runArtifacts file i [] st = st := rfl

theorem runArtifacts_cons (file : String) (i : Nat) (a : String × Bytes)
    (rest : List (String × Bytes)) (st : RunState) :
    runArtifacts file i (a :: rest) st =
      runArtifacts file i rest (writeFile file i st a.1 a.2) := rfl

theorem writeFile_frame (file : String) (i : Nat) (st : RunState)
    (name : String) (c : Bytes) :
    (writeFile file i st name c).count = st.count ∧
    (writeFile file i st name c).failed = st.failed ∧
    (writeFile file i st name c).exitCode = st.exitCode ∧
    (writeFile file i st name c).log = st.log := by
  unfold writeFile
  by_cases h1 : extname name = ".wasm"
  · simp [h1]
  · by_cases h2 : extname name = ".map" <;> simp [h1, h2]

theorem runArtifacts_frame (file : String) (i : Nat)
    (arts : List (String × Bytes)) :
    ∀ st : RunState,
    (runArtifacts file i arts st).count = st.count ∧
    (runArtifacts file i arts st).failed = st.failed ∧
    (runArtifacts file i arts st).exitCode = st.exitCode ∧
    (runArtifacts file i arts st).log = st.log := by
  induction arts with
  | nil => intro st; exact ⟨rfl, rfl, rfl, rfl⟩
  | cons a rest ih =>
    intro st
    rw [runArtifacts_cons]
    obtain ⟨c1, c2, c3, c4⟩ := ih (writeFile file i st a.1 a.2)
    obtain ⟨w1, w2, w3, w4⟩ := writeFile_frame file i st a.1 a.2
    exact ⟨c1.trans w1, c2.trans w2, c3.trans w3, c4.trans w4⟩

theorem writeFile_binaries_get (file : String) (i k : Nat) (st : RunState)
    (name : String) (c : Bytes) :
    assocGet k (writeFile file i st name c).binaries =
      if extname name = ".wasm" then
        (if k = i then some c else assocGet k st.binaries)
      else assocGet k st.binaries := by
  unfold writeFile
  by_cases h1 : extname name = ".wasm"
  · simp [h1, assocGet_assocSet]
  · by_cases h2 : extname name = ".map" <;> simp [h1, h2]

theorem runArtifacts_binaries_get (file : String) (i k : Nat)
    (arts : List (String × Bytes)) :
    ∀ st : RunState,
    assocGet k (runArtifacts file i arts st).binaries =
      if k = i then
        arts.foldl (fun acc a => if extname a.1 = ".wasm" then some a.2 else acc)
          (assocGet i st.binaries)
      else assocGet k st.binaries := by
  induction arts with
  | nil =>
    intro st
    by_cases h : k = i
    · subst h; simp [runArtifacts_nil]
    · simp [runArtifacts_nil, h]
  | cons a rest ih =>
    intro st
    rw [runArtifacts_cons, ih (writeFile file i st a.1 a.2), List.foldl_cons]
    rw [writeFile_binaries_get file i i st a.1 a.2,
        writeFile_binaries_get file i k st a.1 a.2]
    by_cases h : k = i
    · subst h
      by_cases hw : extname a.1 = ".wasm" <;> simp [hw]
    · by_cases hw : extname a.1 = ".wasm" <;> simp [h, hw]

theorem compileCallback_error (runPass : Bytes → Bool) (file : String)
    (i : Nat) (e : String) (st : RunState) :
    compileCallback runPass file i (some e) st =
      { st with log := st.log ++ [Diagnostic.compileError file],
                count := st.count - 1, exitCode := some 1 } := rfl

theorem compileCallback_missing (runPass : Bytes → Bool) (file : String)
    (i : Nat) (st : RunState) (h : assocGet i st.binaries = none) :
    compileCallback runPass file i none st =
      { st with log := st.log ++ [Diagnostic.noBinary file],
                count := st.count - 1, exitCode := some 1 } := by
  simp [compileCallback, h]

theorem compileCallback_found (runPass : Bytes → Bool) (file : String)
    (i : Nat) (st : RunState) (bin : Bytes)
    (h : assocGet i st.binaries = some bin) :
    compileCallback runPass file i none st =
      { st with count := st.count - 1,
                failed := st.failed || !(runPass bin),
                exitCode :=
                  if st.count - 1 = 0 && (st.failed || !(runPass bin))
                  then some 1 else st.exitCode } := by
  simp [compileCallback, h]

theorem runUnits_exit_aux (runPass : Bytes → Bool) (jobs : List UnitJob) :
    ∀ st : RunState,
    st.exitCode = none →
    st.count = jobs.length →
    (jobs.map UnitJob.i).Nodup →
    (∀ j ∈ jobs, j.error = none) →
    (∀ j ∈ jobs, (capturedBinary j).isSome) →
    (∀ j ∈ jobs, assocGet j.i st.binaries = none) →
    (runUnits runPass jobs st).exitCode =
      (if jobs.length = 0 then none
       else if st.failed || jobs.any (unitFails runPass) then some 1 else none) ∧
    (runUnits runPass jobs st).count = 0 := by
  induction jobs with
  | nil =>
    intro st h0 h1 _ _ _ _
    rw [runUnits_nil]
    exact ⟨by simpa using h0, by simpa using h1⟩
  | cons j rest ih =>
    intro st h0 h1 hnodup herr hbin hget
    have hmemj : j ∈ j :: rest := List.mem_cons_self j rest
    have herrj : j.error = none := herr j hmemj
    obtain ⟨b, hb⟩ := Option.isSome_iff_exists.mp (hbin j hmemj)
    obtain ⟨f1, f2, f3, f4⟩ := runArtifacts_frame j.file j.i j.artifacts st
    have hget1 :
        assocGet j.i (runArtifacts j.file j.i j.artifacts st).binaries = some b := by
      rw [runArtifacts_binaries_get, if_pos rfl, hget j hmemj]
      exact hb
    have hfails : unitFails runPass j = !(runPass b) := by
      rw [unitFails, hb]; rfl
    have hstep : runUnit runPass j st =
        { runArtifacts j.file j.i j.artifacts st with
          count := st.count - 1,
          failed := st.failed || !(runPass b),
          exitCode :=
            if st.count - 1 = 0 && (st.failed || !(runPass b))
            then some 1 else none } := by
      rw [runUnit, herrj,
          compileCallback_found runPass j.file j.i _ b hget1, f1, f2, f3, h0]
    have hcount1 : st.count - 1 = rest.length := by
      rw [h1, List.length_cons]
      exact Nat.succ_sub_one rest.length
    rw [runUnits_cons]
    have hguard :
        (if st.exitCode.isSome then st else runUnit runPass j st) =
          runUnit runPass j st := by
      rw [h0]; rfl
    rw [hguard, hstep, hcount1]
    cases rest with
    | nil =>
      rw [runUnits_nil]
      refine ⟨?_, rfl⟩
      simp [hfails]
    | cons j2 rest2 =>
      rw [List.map_cons] at hnodup
      have hnodup2 := List.nodup_cons.mp hnodup
      have hS0 :
          ({ runArtifacts j.file j.i j.artifacts st with
             count := (j2 :: rest2).length,
             failed := st.failed || !(runPass b),
             exitCode :=
               if (j2 :: rest2).length = 0 && (st.failed || !(runPass b))
               then some 1 else none } : RunState).exitCode = none := by
        simp
      obtain ⟨e1, e2⟩ := ih _ hS0 rfl hnodup2.2
        (fun j2m hm => herr j2m (List.mem_cons_of_mem j hm))
        (fun j2m hm => hbin j2m (List.mem_cons_of_mem j hm))
        (fun j2m hm => by
          show assocGet j2m.i (runArtifacts j.file j.i j.artifacts st).binaries = none
          rw [runArtifacts_binaries_get]
          have hne : j2m.i ≠ j.i := by
            intro hEq
            exact hnodup2.1 (hEq ▸ List.mem_map_of_mem UnitJob.i hm)
          rw [if_neg hne]
          exact hget j2m (List.mem_cons_of_mem j hm))
      refine ⟨?_, e2⟩
      rw [e1]
      simp only [List.length_cons, Nat.succ_ne_zero, if_false, List.any_cons, hfails]
      simp only [Bool.or_assoc]

/-- Helper: the observed exit status of a run in which every unit
compiles and captures a binary. -/
theorem finalExit_runUnits (runPass : Bytes → Bool) (jobs : List UnitJob)
    (hnodup : (jobs.map UnitJob.i).Nodup)
    (herr : ∀ j ∈ jobs, j.error = none)
    (hbin : ∀ j ∈ jobs, (capturedBinary j).isSome) :
    finalExit (runUnits runPass jobs (initState jobs.length)) =
      (if jobs.any (unitFails runPass) then 1 else 0) := by
  obtain ⟨e1, _⟩ := runUnits_exit_aux runPass jobs (initState jobs.length)
    rfl rfl hnodup herr hbin (fun j _ => rfl)
  rw [finalExit, e1]
  by_cases hl : jobs.length = 0
  · have hnil : jobs = [] := List.length_eq_zero.mp hl
    subst hnil
    simp
  · rw [if_neg hl]
    show ((if (initState jobs.length).failed || jobs.any (unitFails runPass)
            then some 1 else none).getD 0) = _
    have hfl : (initState jobs.length).failed = false := rfl
    rw [hfl, Bool.false_or]
    cases jobs.any (unitFails runPass) <;> rfl

theorem any_of_perm {α : Type} {l1 l2 : List α} (h : List.Perm l1 l2)
    (p : α → Bool) : l1.any p = l2.any p := by
  cases h1 : l1.any p <;> cases h2 : l2.any p
  · rfl
  · obtain ⟨x, hx, hpx⟩ := List.any_eq_true.mp h2
    have : l1.any p = true := List.any_eq_true.mpr ⟨x, h.symm.subset hx, hpx⟩
    rw [h1] at this
    exact absurd this (by simp)
  · obtain ⟨x, hx, hpx⟩ := List.any_eq_true.mp h1
    have : l2.any p = true := List.any_eq_true.mpr ⟨x, h.subset hx, hpx⟩
    rw [h2] at this
    exact absurd this (by simp)
  · rfl

/-! ### Fatal-path lemmas (claim C2) -/

theorem runUnits_exited (runPass : Bytes → Bool) (jobs : List UnitJob) :
    ∀ st : RunState, st.exitCode.isSome → runUnits runPass jobs st = st := by
  induction jobs with
  | nil => intro st _; rfl
  | cons j rest ih =>
    intro st h
    rw [runUnits_cons, if_pos h]
    exact ih st h

theorem runUnit_error (runPass : Bytes → Bool) (j : UnitJob) (st : RunState)
    (e : String) (he : j.error = some e) :
    (runUnit runPass j st).exitCode = some 1 ∧
    (runUnit runPass j st).log = st.log ++ [Diagnostic.compileError j.file] ∧
    (runUnit runPass j st).count = st.count - 1 := by
  obtain ⟨f1, _, _, f4⟩ := runArtifacts_frame j.file j.i j.artifacts st
  rw [runUnit, he, compileCallback_error]
  exact ⟨rfl, by simp [f4], by simp [f1]⟩

theorem runUnit_missing (runPass : Bytes → Bool) (j : UnitJob) (st : RunState)
    (he : j.error = none) (hcap : capturedBinary j = none)
    (hget : assocGet j.i st.binaries = none) :
    (runUnit runPass j st).exitCode = some 1 ∧
    (runUnit runPass j st).log = st.log ++ [Diagnostic.noBinary j.file] ∧
    (runUnit runPass j st).count = st.count - 1 := by
  obtain ⟨f1, _, _, f4⟩ := runArtifacts_frame j.file j.i j.artifacts st
  have hget1 :
      assocGet j.i (runArtifacts j.file j.i j.artifacts st).binaries = none := by
    rw [runArtifacts_binaries_get, if_pos rfl, hget]
    exact hcap
  rw [runUnit, he, compileCallback_missing runPass j.file j.i _ hget1]
  exact ⟨rfl, by simp [f4], by simp [f1]⟩

theorem diagnostic_message_ne (f : String) :
    Diagnostic.message (Diagnostic.compileError f) ≠
      Diagnostic.message (Diagnostic.noBinary f) := by
  intro h
  have hlen := congrArg String.length h
  rw [Diagnostic.message, Diagnostic.message] at hlen
  rw [String.length_append, String.length_append,
      String.length_append, String.length_append] at hlen
  have e1 :
      ("There was a compilation error when trying to create the wasm binary for file: " : String).length = 78 := by
    decide
  have e2 : ("There was no output binary file: " : String).length = 33 := by
    decide
  have e3 : ("." : String).length = 1 := by decide
  have e4 : (". Did you forget to emit the binary?" : String).length = 36 := by
    decide
  rw [e1, e2, e3, e4] at hlen
  omega

/-! ### Write-sink dispatch lemmas (claims C5 and C10) -/

theorem writeFile_wasm (file : String) (i : Nat) (st : RunState)
    (name : String) (c : Bytes) (h : extname name = ".wasm") :
    writeFile file i st name c =
      { st with binaries := assocSet st.binaries i c } := by
  simp [writeFile, h]

theorem writeFile_map (file : String) (i : Nat) (st : RunState)
    (name : String) (c : Bytes) (h1 : extname name ≠ ".wasm")
    (h2 : extname name = ".map") :
    writeFile file i st name c =
      { st with sourcemaps := assocSet st.sourcemaps name c } := by
  simp [writeFile, if_neg h1, h2]

theorem writeFile_other (file : String) (i : Nat) (st : RunState)
    (name : String) (c : Bytes) (h1 : extname name ≠ ".wasm")
    (h2 : extname name ≠ ".map") :
    writeFile file i st name c =
      { st with disk := st.disk ++
          [(pathJoin (dirname file)
              (baseNameDrop file (extname file) ++ extname name), c)] } := by
  simp [writeFile, h1, h2]

/-! ### List-fold helpers (claims C3 and C4) -/

theorem foldl_append_eq_bind (g : String → List String) (patterns : List String) :
    ∀ acc : List String,
    patterns.foldl (fun acc p => acc ++ g p) acc = acc ++ patterns.flatMap g := by
  induction patterns with
  | nil => intro acc; simp
  | cons p rest ih =>
    intro acc
    rw [List.foldl_cons, ih (acc ++ g p), List.flatMap_cons, List.append_assoc]

theorem resolveIncludes_eq_bind (g : String → List String)
    (patterns : List String) :
    resolveIncludes g patterns = patterns.flatMap g := by
  rw [resolveIncludes, foldl_append_eq_bind]
  exact List.nil_append _

theorem applyDisclude_eq_filter (disclude : List (String → Bool)) :
    ∀ files : List String,
    applyDisclude disclude files =
      files.filter (fun f => disclude.all (fun r => !(r f))) := by
  induction disclude with
  | nil => intro files; simp [applyDisclude]
  | cons r rest ih =>
    intro files
    show applyDisclude rest (files.filter (fun f => !(r f))) = _
    rw [ih (files.filter (fun f => !(r f))), List.filter_filter]
    simp only [List.all_cons]
    exact List.filter_congr (fun f _ => by rw [Bool.and_comm])

theorem flagList_foldl (flags : List FlagEntry) :
    ∀ acc : List String,
    flags.foldl (fun args fo => args ++ ([fo.1] ++ fo.2)) acc =
      acc ++ flags.flatMap (fun fo => [fo.1] ++ fo.2) := by
  induction flags with
  | nil => intro acc; simp
  | cons fo rest ih =>
    intro acc
    rw [List.foldl_cons, ih, List.flatMap_cons, List.append_assoc]

theorem flagList_eq_bind (flags : List FlagEntry) :
    flagList flags = flags.flatMap (fun fo => [fo.1] ++ fo.2) := by
  rw [flagList, flagList_foldl]
  exact List.nil_append _

/-! ### Claim theorems -/

/-- C9: the fatal branch reporting the loaded configuration as null or
not an object is unreachable.  The configuration variable is assigned
the require result or-else the empty object inside a try whose catch
exits, so at the subsequent null check the configuration is always
truthy: whatever the require call does, the load either takes the
catch exit or produces a truthy configuration, and the exitNullCheck
outcome never occurs. -/
theorem config_null_check_unreachable (req : Except String JSValue) :
    (loadConfiguration req = ConfigLoadResult.exitCatch ∨
      ∃ cfg, loadConfiguration req = ConfigLoadResult.loaded cfg ∧
        truthy cfg = true) ∧
    loadConfiguration req ≠ ConfigLoadResult.exitNullCheck := by
  have hmain : loadConfiguration req = ConfigLoadResult.exitCatch ∨
      ∃ cfg, loadConfiguration req = ConfigLoadResult.loaded cfg ∧
        truthy cfg = true := by
    cases req with
    | error e => exact Or.inl rfl
    | ok v =>
      have htr : truthy (jsOr v JSValue.objv) = true := by
        rw [jsOr]
        by_cases h : truthy v
        · rw [if_pos h]; exact h
        · rw [if_neg h]; rfl
      refine Or.inr ⟨jsOr v JSValue.objv, ?_, htr⟩
      show (if truthy (jsOr v JSValue.objv) = false then
              ConfigLoadResult.exitNullCheck
            else ConfigLoadResult.loaded (jsOr v JSValue.objv)) =
          ConfigLoadResult.loaded (jsOr v JSValue.objv)
      rw [htr]
      simp
  refine ⟨hmain, ?_⟩
  rcases hmain with h | ⟨cfg, h, _⟩ <;> rw [h] <;> simp

/-- C6: the default flag mapping contains the mandatory binary-output
flag --binaryFile; a user-supplied mapping completely replaces the
default, with no silent insertion of the missing flag; downstream, a
unit that never captures a binary hits the missing-artifact fatal path:
exit 1 with the no-binary diagnostic. -/
theorem binaryFile_flag_defaulting :
    (("--binaryFile", ["output.wasm"]) ∈ defaultFlags ∧
     "--binaryFile" ∈ defaultFlags.map Prod.fst) ∧
    (∀ userFlags : List FlagEntry, flagsOf (some userFlags) = userFlags) ∧
    flagsOf none = defaultFlags ∧
    (∀ (runPass : Bytes → Bool) (j : UnitJob) (st : RunState),
      j.error = none → capturedBinary j = none →
      assocGet j.i st.binaries = none →
      (runUnit runPass j st).exitCode = some 1 ∧
      (runUnit runPass j st).log = st.log ++ [Diagnostic.noBinary j.file]) := by
  refine ⟨⟨by decide, by decide⟩, fun u => rfl, rfl, ?_⟩
  intro runPass j st he hc hg
  obtain ⟨h1, h2, _⟩ := runUnit_missing runPass j st he hc hg
  exact ⟨h1, h2⟩

/-- C6 witness: a custom flag mapping omitting --binaryFile is kept
as-is, and a unit emitting no binary exits 1. -/
theorem binaryFile_flag_defaulting_witness :
    flagsOf (some [("--validate", ([] : List String))]) =
      [("--validate", [])] ∧
    (runUnit (fun _ => true)
        { file := "a.spec.ts", i := 0, artifacts := [], error := none }
        (initState 1)).exitCode = some 1 := by
  refine ⟨binaryFile_flag_defaulting.2.1 _, ?_⟩
  exact (binaryFile_flag_defaulting.2.2.2 (fun _ => true)
    { file := "a.spec.ts", i := 0, artifacts := [], error := none }
    (initState 1) rfl rfl rfl).1

/-- C3: the resolved spec-file list equals the concatenation of the
include matches in pattern order, deduplicated preserving first
occurrence, with every path matching any exclude expression removed;
it is duplicate-free and disjoint from every exclude expression; the
deduplication preserves order (sublist) and membership; and the
add-pattern list is the raw concatenation with the framework entry
appended, with no exclude filtering or deduplication applied to it. -/
theorem file_resolution (g : String → List String) (inc : List String)
    (excl : List (String → Bool)) :
    testEntryFiles g inc excl =
      (uniq (inc.flatMap g)).filter (fun f => excl.all (fun r => !(r f))) ∧
    (testEntryFiles g inc excl).Nodup ∧
    (∀ f ∈ testEntryFiles g inc excl, ∀ r ∈ excl, r f = false) ∧
    List.Sublist (uniq (inc.flatMap g)) (inc.flatMap g) ∧
    (∀ f, f ∈ uniq (inc.flatMap g) ↔ f ∈ inc.flatMap g) ∧
    (∀ (add : List String) (entry : String),
      addedTestEntryFiles g add entry = add.flatMap g ++ [entry]) := by
  have heq : testEntryFiles g inc excl =
      (uniq (inc.flatMap g)).filter (fun f => excl.all (fun r => !(r f))) := by
    rw [testEntryFiles, applyDisclude_eq_filter, resolveIncludes_eq_bind]
  refine ⟨heq, ?_, ?_, uniq_sublist _, fun f => mem_uniq, ?_⟩
  · rw [heq]
    exact (uniq_nodup _).filter _
  · intro f hf r hr
    rw [heq] at hf
    have hall := (List.mem_filter.mp hf).2
    have hr2 := (List.all_eq_true.mp hall) r hr
    simpa using hr2
  · intro add entry
    rw [addedTestEntryFiles, foldl_append_eq_bind]
    rw [List.nil_append]

/-- C3 witness: with one include pattern matching x, y, x and an
exclude expression matching y, the resolved list is the deduplicated,
filtered x, on which every exclude expression is false; the add list
keeps its duplicates and the appended framework entry. -/
theorem file_resolution_witness :
    "x" ∈ testEntryFiles (fun _ => ["x", "y", "x"]) ["p"]
      [fun f => decide (f = "y")] ∧
    (fun f => decide (f = "y")) "x" = false ∧
    addedTestEntryFiles (fun _ => ["x", "y", "x"]) ["p"] "e" =
      ["x", "y", "x", "e"] := by
  have hmem : "x" ∈ testEntryFiles (fun _ => ["x", "y", "x"]) ["p"]
      [fun f => decide (f = "y")] := by
    show "x" ∈ ["x"]
    exact List.mem_singleton.mpr rfl
  refine ⟨hmem, ?_, ?_⟩
  · exact (file_resolution (fun _ => ["x", "y", "x"]) ["p"]
      [fun f => decide (f = "y")]).2.2.1 "x" hmem
      (fun f => decide (f = "y")) (List.mem_singleton.mpr rfl)
  · exact ((file_resolution (fun _ => ["x", "y", "x"]) ["p"]
      [fun f => decide (f = "y")]).2.2.2.2.2 ["p"] "e").trans rfl

/-- C4: the compiler argument list for one spec file is exactly the
spec file, then every add-pattern file in order, then the fixed
framework runtime entry, then the flag mapping flattened in insertion
order with each flag token followed by its arguments. -/
theorem compiler_argument_list (g : String → List String)
    (add : List String) (entry file : String) (flags : List FlagEntry) :
    ascArguments file (addedTestEntryFiles g add entry) flags =
      [file] ++ add.flatMap g ++ [entry] ++
        flags.flatMap (fun fo => [fo.1] ++ fo.2) := by
  rw [ascArguments, addedTestEntryFiles, foldl_append_eq_bind,
      flagList_eq_bind]
  simp [List.append_assoc]

/-- C1: over any run in which every unit compiles and captures a
binary, in any completion order, the process exit status is 1 exactly
when some unit reports pass = false and 0 otherwise (zero units
included); the pending counter, initialized to the unit count and
decremented on every completion, ends at 0, and the whole verdict is
invariant under permuting the completion order. -/
theorem exit_status_aggregation (runPass : Bytes → Bool)
    (jobs : List UnitJob)
    (hnodup : (jobs.map UnitJob.i).Nodup)
    (herr : ∀ j ∈ jobs, j.error = none)
    (hbin : ∀ j ∈ jobs, (capturedBinary j).isSome) :
    finalExit (runUnits runPass jobs (initState jobs.length)) =
      (if jobs.any (unitFails runPass) then 1 else 0) ∧
    (runUnits runPass jobs (initState jobs.length)).count = 0 ∧
    (∀ jobs2 : List UnitJob, List.Perm jobs jobs2 →
      finalExit (runUnits runPass jobs2 (initState jobs2.length)) =
        finalExit (runUnits runPass jobs (initState jobs.length))) := by
  refine ⟨finalExit_runUnits runPass jobs hnodup herr hbin,
    (runUnits_exit_aux runPass jobs (initState jobs.length) rfl rfl hnodup
      herr hbin (fun j _ => rfl)).2, ?_⟩
  intro jobs2 hperm
  have hnodup2 : (jobs2.map UnitJob.i).Nodup :=
    ((hperm.map UnitJob.i).nodup_iff).mp hnodup
  have herr2 : ∀ j ∈ jobs2, j.error = none :=
    fun j hj => herr j (hperm.symm.subset hj)
  have hbin2 : ∀ j ∈ jobs2, (capturedBinary j).isSome :=
    fun j hj => hbin j (hperm.symm.subset hj)
  rw [finalExit_runUnits runPass jobs2 hnodup2 herr2 hbin2,
      finalExit_runUnits runPass jobs hnodup herr hbin,
      any_of_perm hperm]

/-- C1 witness: two units, both compiling and emitting binaries, the
second failing, yield exit status 1. -/
theorem exit_status_aggregation_witness :
    finalExit (runUnits (fun b => decide (b = [1]))
      ([{ file := "a.spec.ts", i := 0,
          artifacts := [("output.wasm", [1])], error := none },
        { file := "b.spec.ts", i := 1,
          artifacts := [("output.wasm", [2])], error := none }] : List UnitJob)
      (initState (List.length
        ([{ file := "a.spec.ts", i := 0,
            artifacts := [("output.wasm", [1])], error := none },
          { file := "b.spec.ts", i := 1,
            artifacts := [("output.wasm", [2])],
            error := none }] : List UnitJob)))) = 1 := by
  have h := (exit_status_aggregation (fun b => decide (b = [1]))
    ([{ file := "a.spec.ts", i := 0,
        artifacts := [("output.wasm", [1])], error := none },
      { file := "b.spec.ts", i := 1,
        artifacts := [("output.wasm", [2])], error := none }] : List UnitJob)
    (by decide) (by decide) (by decide)).1
  rw [h]
  rfl

/-- C2: when the compilation of a unit reports an error, or reports none but
no binary was captured for its index, the pipeline logs a diagnostic
and terminates with exit 1 immediately: the remaining units are never
processed.  The two diagnostics have distinct message texts. -/
theorem fatal_compile_paths (runPass : Bytes → Bool) (j : UnitJob)
    (rest : List UnitJob) (st : RunState) (hexit : st.exitCode = none) :
    (∀ e, j.error = some e →
      runUnits runPass (j :: rest) st = runUnit runPass j st ∧
      (runUnit runPass j st).exitCode = some 1 ∧
      (runUnit runPass j st).log =
        st.log ++ [Diagnostic.compileError j.file]) ∧
    (j.error = none → capturedBinary j = none →
      assocGet j.i st.binaries = none →
      runUnits runPass (j :: rest) st = runUnit runPass j st ∧
      (runUnit runPass j st).exitCode = some 1 ∧
      (runUnit runPass j st).log =
        st.log ++ [Diagnostic.noBinary j.file]) ∧
    (∀ f, Diagnostic.message (Diagnostic.compileError f) ≠
      Diagnostic.message (Diagnostic.noBinary f)) := by
  have hguard :
      (if st.exitCode.isSome then st else runUnit runPass j st) =
        runUnit runPass j st := by
    rw [hexit]; rfl
  refine ⟨?_, ?_, diagnostic_message_ne⟩
  · intro e he
    obtain ⟨h1, h2, _⟩ := runUnit_error runPass j st e he
    refine ⟨?_, h1, h2⟩
    rw [runUnits_cons, hguard]
    exact runUnits_exited runPass rest _ (by rw [h1]; rfl)
  · intro he hc hg
    obtain ⟨h1, h2, _⟩ := runUnit_missing runPass j st he hc hg
    refine ⟨?_, h1, h2⟩
    rw [runUnits_cons, hguard]
    exact runUnits_exited runPass rest _ (by rw [h1]; rfl)

/-- C2 witness: a unit with a compile error terminates the run with
exit 1 and its diagnostic, leaving the second unit unprocessed; the
two fatal diagnostics differ on a concrete file. -/
theorem fatal_compile_paths_witness :
    runUnits (fun _ => true)
      [{ file := "bad.spec.ts", i := 0, artifacts := [],
         error := some "boom" },
       { file := "other.spec.ts", i := 1, artifacts := [],
         error := none }] (initState 2) =
      runUnit (fun _ => true)
        { file := "bad.spec.ts", i := 0, artifacts := [],
          error := some "boom" } (initState 2) ∧
    (runUnit (fun _ => true)
      { file := "bad.spec.ts", i := 0, artifacts := [],
        error := some "boom" } (initState 2)).exitCode = some 1 ∧
    Diagnostic.message (Diagnostic.compileError "bad.spec.ts") ≠
      Diagnostic.message (Diagnostic.noBinary "bad.spec.ts") := by
  have h := fatal_compile_paths (fun _ => true)
    { file := "bad.spec.ts", i := 0, artifacts := [],
      error := some "boom" }
    [{ file := "other.spec.ts", i := 1, artifacts := [],
       error := none }] (initState 2) rfl
  obtain ⟨h1, h2, _⟩ := h.1 "boom" rfl
  exact ⟨h1, h2, h.2.2 "bad.spec.ts"⟩

/-- C5: the write sink routes every artifact by extension: .wasm is
captured in the binary map under the unit index and touches neither
the sourcemap store nor the disk; .map is captured in the sourcemap
store under the artifact name and touches neither the binary map nor
the disk; anything else is appended to the disk at the sibling path
built from the directory and base name of the spec file with the artifact
extension, leaving both in-memory stores unchanged. -/
theorem write_sink_dispatch (file : String) (i : Nat) (st : RunState)
    (name : String) (c : Bytes) :
    (extname name = ".wasm" →
      (writeFile file i st name c).binaries = assocSet st.binaries i c ∧
      assocGet i (writeFile file i st name c).binaries = some c ∧
      (writeFile file i st name c).sourcemaps = st.sourcemaps ∧
      (writeFile file i st name c).disk = st.disk) ∧
    (extname name ≠ ".wasm" → extname name = ".map" →
      (writeFile file i st name c).sourcemaps =
        assocSet st.sourcemaps name c ∧
      assocGet name (writeFile file i st name c).sourcemaps = some c ∧
      (writeFile file i st name c).binaries = st.binaries ∧
      (writeFile file i st name c).disk = st.disk) ∧
    (extname name ≠ ".wasm" → extname name ≠ ".map" →
      (writeFile file i st name c).disk = st.disk ++
        [(pathJoin (dirname file)
            (baseNameDrop file (extname file) ++ extname name), c)] ∧
      (writeFile file i st name c).binaries = st.binaries ∧
      (writeFile file i st name c).sourcemaps = st.sourcemaps) := by
  refine ⟨fun h => ?_, fun h1 h2 => ?_, fun h1 h2 => ?_⟩
  · rw [writeFile_wasm file i st name c h]
    refine ⟨rfl, ?_, rfl, rfl⟩
    show assocGet i (assocSet st.binaries i c) = some c
    rw [assocGet_assocSet]
    simp
  · rw [writeFile_map file i st name c h1 h2]
    refine ⟨rfl, ?_, rfl, rfl⟩
    show assocGet name (assocSet st.sourcemaps name c) = some c
    rw [assocGet_assocSet]
    simp
  · rw [writeFile_other file i st name c h1 h2]
    exact ⟨rfl, rfl, rfl⟩

/-- C5 witness: from an empty state, a .wasm artifact lands in the
binary map under index 0, a .map artifact lands in the sourcemap store
under its name, and a .wat artifact lands on disk at the sibling path
of the spec file. -/
theorem write_sink_dispatch_witness :
    (writeFile "assembly/a.spec.ts" 0 (initState 1)
      "output.wasm" [7]).binaries = [(0, [7])] ∧
    (writeFile "assembly/a.spec.ts" 0 (initState 1)
      "output.wasm.map" [8]).sourcemaps = [("output.wasm.map", [8])] ∧
    (writeFile "assembly/a.spec.ts" 0 (initState 1)
      "output.wat" [9]).disk = [("assembly/a.spec.wat", [9])] := by
  obtain ⟨w1, _, _, _⟩ := (write_sink_dispatch "assembly/a.spec.ts" 0
    (initState 1) "output.wasm" [7]).1 (by decide)
  obtain ⟨m1, _, _, _⟩ := (write_sink_dispatch "assembly/a.spec.ts" 0
    (initState 1) "output.wasm.map" [8]).2.1 (by decide) (by decide)
  obtain ⟨o1, _, _⟩ := (write_sink_dispatch "assembly/a.spec.ts" 0
    (initState 1) "output.wat" [9]).2.2 (by decide) (by decide)
  refine ⟨?_, ?_, ?_⟩
  · rw [w1]; rfl
  · rw [m1]; rfl
  · rw [o1]; rfl

/-! ### Sourcemap frame lemmas (claim C10) -/

theorem writeFile_sameExceptMaps (file : String) (i : Nat) (name : String)
    (c : Bytes) {s t : RunState} (h : SameExceptMaps s t) :
    SameExceptMaps (writeFile file i s name c) (writeFile file i t name c) := by
  obtain ⟨h1, h2, h3, h4, h5, h6⟩ := h
  by_cases e1 : extname name = ".wasm"
  · rw [writeFile_wasm file i s name c e1, writeFile_wasm file i t name c e1]
    exact ⟨by rw [h1], h2, h3, h4, h5, h6⟩
  · by_cases e2 : extname name = ".map"
    · rw [writeFile_map file i s name c e1 e2,
          writeFile_map file i t name c e1 e2]
      exact ⟨h1, h2, h3, h4, h5, h6⟩
    · rw [writeFile_other file i s name c e1 e2,
          writeFile_other file i t name c e1 e2]
      exact ⟨h1, by rw [h2], h3, h4, h5, h6⟩

theorem runArtifacts_sameExceptMaps (file : String) (i : Nat)
    (arts : List (String × Bytes)) :
    ∀ {s t : RunState}, SameExceptMaps s t →
    SameExceptMaps (runArtifacts file i arts s) (runArtifacts file i arts t) := by
  induction arts with
  | nil => intro s t h; exact h
  | cons a rest ih =>
    intro s t h
    rw [runArtifacts_cons, runArtifacts_cons]
    exact ih (writeFile_sameExceptMaps file i a.1 a.2 h)

theorem compileCallback_sameExceptMaps (runPass : Bytes → Bool)
    (file : String) (i : Nat) (err : Option String) {s t : RunState}
    (h : SameExceptMaps s t) :
    SameExceptMaps (compileCallback runPass file i err s)
      (compileCallback runPass file i err t) := by
  obtain ⟨h1, h2, h3, h4, h5, h6⟩ := h
  cases err with
  | some e =>
    rw [compileCallback_error, compileCallback_error]
    exact ⟨h1, h2, by rw [h3], h4, rfl, by rw [h6]⟩
  | none =>
    cases hb : assocGet i t.binaries with
    | none =>
      rw [compileCallback_missing runPass file i t hb,
          compileCallback_missing runPass file i s (by rw [h1]; exact hb)]
      exact ⟨h1, h2, by rw [h3], h4, rfl, by rw [h6]⟩
    | some bin =>
      rw [compileCallback_found runPass file i t bin hb,
          compileCallback_found runPass file i s bin (by rw [h1]; exact hb)]
      exact ⟨h1, h2, by rw [h3], by rw [h4], by rw [h3, h4, h5], by rw [h6]⟩

theorem runUnit_sameExceptMaps (runPass : Bytes → Bool) (j : UnitJob)
    {s t : RunState} (h : SameExceptMaps s t) :
    SameExceptMaps (runUnit runPass j s) (runUnit runPass j t) :=
  compileCallback_sameExceptMaps runPass j.file j.i j.error
    (runArtifacts_sameExceptMaps j.file j.i j.artifacts h)

theorem runUnits_sameExceptMaps (runPass : Bytes → Bool)
    (jobs : List UnitJob) :
    ∀ {s t : RunState}, SameExceptMaps s t →
    SameExceptMaps (runUnits runPass jobs s) (runUnits runPass jobs t) := by
  induction jobs with
  | nil => intro s t h; exact h
  | cons j rest ih =>
    intro s t h
    rw [runUnits_cons, runUnits_cons]
    have hexit : s.exitCode = t.exitCode := h.2.2.2.2.1
    by_cases hs : t.exitCode.isSome
    · rw [if_pos hs, if_pos (by rw [hexit]; exact hs)]
      exact ih h
    · rw [if_neg hs, if_neg (by rw [hexit]; exact hs)]
      exact ih (runUnit_sameExceptMaps runPass j h)

/-- C10: sourcemap artifacts accumulate in one store shared across
units and keyed only by artifact name, so a later unit writing the
same name overwrites the earlier entry; map writes never touch the
disk or the binary map; and every pipeline observable of a whole run
(binaries, disk, counter, failed flag, exit request, log) is invariant
under the initial contents of the sourcemap store, which no unit
callback, loader invocation or reporter result ever consumes. -/
theorem sourcemaps_shared_and_unconsumed :
    (∀ (file1 file2 : String) (i1 i2 : Nat) (st : RunState)
       (name : String) (c1 c2 : Bytes),
       extname name ≠ ".wasm" → extname name = ".map" →
       assocGet name (writeFile file2 i2
         (writeFile file1 i1 st name c1) name c2).sourcemaps = some c2) ∧
    (∀ (file : String) (i : Nat) (st : RunState) (name : String)
       (c : Bytes), extname name ≠ ".wasm" → extname name = ".map" →
       (writeFile file i st name c).disk = st.disk ∧
       (writeFile file i st name c).binaries = st.binaries) ∧
    (∀ (runPass : Bytes → Bool) (jobs : List UnitJob) (st : RunState)
       (sm : List (String × Bytes)),
       SameExceptMaps (runUnits runPass jobs { st with sourcemaps := sm })
         (runUnits runPass jobs st)) := by
  refine ⟨?_, ?_, ?_⟩
  · intro f1 f2 i1 i2 st name c1 c2 h1 h2
    rw [writeFile_map f2 i2 _ name c2 h1 h2]
    show assocGet name
      (assocSet (writeFile f1 i1 st name c1).sourcemaps name c2) = some c2
    rw [assocGet_assocSet]
    simp
  · intro f i st name c h1 h2
    rw [writeFile_map f i st name c h1 h2]
    exact ⟨rfl, rfl⟩
  · intro runPass jobs st sm
    exact runUnits_sameExceptMaps runPass jobs ⟨rfl, rfl, rfl, rfl, rfl, rfl⟩

/-- C10 witness: two different units write a map artifact of the same
name; the store holds the later contents. -/
theorem sourcemaps_shared_and_unconsumed_witness :
    assocGet "module.map"
      (writeFile "b.spec.ts" 1
        (writeFile "a.spec.ts" 0 (initState 2) "module.map" [1])
        "module.map" [2]).sourcemaps = some [2] :=
  sourcemaps_shared_and_unconsumed.1 "a.spec.ts" "b.spec.ts" 0 1
    (initState 2) "module.map" [1] [2] (by decide) (by decide)

/-- C7: the .not property yields an Expectation bound to the same
value; a matcher call on it reports exactly the logical negation of
the normal verdict of the matcher; and the negation acts only on the
already-computed raw verdict, never re-evaluating the matcher. -/
theorem negation_contract {α : Type} (value : α) (e : Expectation α)
    (matcher : α → Bool) (raw : Bool) :
    (Expectation.not (expect value)).actual = value ∧
    runMatcher (Expectation.not (expect value)) matcher = !(matcher value) ∧
    runMatcher (expect value) matcher = matcher value ∧
    (Expectation.not e).actual = e.actual ∧
    runMatcher (Expectation.not e) matcher = !(runMatcher e matcher) ∧
    (Expectation.not e).report raw = !(e.report raw) := by
  refine ⟨rfl, rfl, rfl, rfl, ?_, ?_⟩
  · cases e with
    | mk a n =>
      cases n <;> simp [runMatcher, Expectation.report, Expectation.not]
  · cases e with
    | mk a n =>
      cases n <;> simp [Expectation.report, Expectation.not]

/-- C8: the toBeCloseTo verdict is true exactly when
abs(actual - expected) < 0.5 * 10 ^ (-places), the places argument
defaults to 2, 42.001 is close to 42.0 at 2 places and 42.1 is not. -/
theorem toBeCloseTo_contract :
    (∀ (a e : ℚ) (p : ℕ),
      toBeCloseTo a e (some p) = true ↔
        |a - e| < (1 / 2) * (10 : ℚ) ^ (-(p : ℤ))) ∧
    (∀ a e : ℚ, toBeCloseTo a e none = toBeCloseTo a e (some 2)) ∧
    toBeCloseTo 42 42.001 (some 2) = true ∧
    toBeCloseTo 42 42.1 (some 2) = false := by
  refine ⟨?_, fun a e => rfl, ?_, ?_⟩
  · intro a e p
    simp [toBeCloseTo]
  · show decide (|(42 : ℚ) - 42.001| <
      (1 / 2) * (10 : ℚ) ^ (-(((some 2 : Option ℕ).getD 2 : ℕ) : ℤ))) = true
    rw [decide_eq_true_eq]
    norm_num
    rw [abs_of_pos (by norm_num : (0 : ℚ) < 1 / 1000)]
    norm_num
  · show decide (|(42 : ℚ) - 42.1| <
      (1 / 2) * (10 : ℚ) ^ (-(((some 2 : Option ℕ).getD 2 : ℕ) : ℤ))) = false
    rw [decide_eq_false_iff_not]
    norm_num
    rw [abs_of_pos (by norm_num : (0 : ℚ) < 1 / 10)]
    norm_num

end Aspect
